import Mathlib

/-!
# webRCT signaling relay

A shallow embedding of `server.js` (the socket.io signaling relay) and of the
room-key handling of `public/app.js`, followed by the properties of the relay:
room capacity, role assignment, rejection when full, forwarding, disconnect.

The relay keeps its state in the socket.io adapter: `io.sockets.adapter.rooms`,
a `Map` from room name to the `Set` of socket ids in that room.  The handlers of
`server.js` are embedded one by one; the three library calls they use
(`socket.join`, `socket.to(room).emit`, and the removal of a socket from its
rooms when the transport disconnects) are modelled after the documented
behaviour of socket.io.

Socket ids are generated by the server and are not room keys supplied by a
client: the private room socket.io keeps for every socket under its own id is
not part of the table modelled here.
-/

namespace WebRCT

/-! ## Data model -/

/-- Room key: the string the client passes with `join` and with each message. -/
abbrev RoomKey := String

/-- Identifier of a connection (`socket.id`). -/
abbrev SocketId := Nat

/-- Negotiation payload (session description or candidate), never inspected by the relay. -/
abbrev Payload := String

/-- The three relayed message kinds. -/
inductive MsgType where
  | offer
  | answer
  | iceCandidate
  deriving DecidableEq

/-- Events the relay emits to a connection. -/
inductive ServerEvent where
  | created (room : RoomKey)
  | joined (room : RoomKey)
  | full (room : RoomKey)
  | ready
  | offer (payload : Payload)
  | answer (payload : Payload)
  | iceCandidate (payload : Payload)
  deriving DecidableEq

/-- One emission: the event `ev` delivered to connection `dest`. -/
structure Emit where
  dest : SocketId
  ev : ServerEvent
  deriving DecidableEq

/-- The table `io.sockets.adapter.rooms`: a `Map` from room key to a `Set` of socket ids.
A `Set` is kept as the list of its elements in insertion order. -/
abbrev Rooms := RoomKey → Option (List SocketId)

/-- The table of a relay that has just started: no rooms. -/
def noRooms : Rooms := fun _ => none

/-- Members of a room (`rooms.get(room)`, or no one when the key has no entry). -/
def members (s : Rooms) (room : RoomKey) : List SocketId :=
  match s room with
  | some clients => clients
  | none => []

/-- The count computed at the top of the join handler:
`clients ? clients.size : 0` with `clients = rooms.get(room)`. -/
def numClients (s : Rooms) (room : RoomKey) : Nat :=
  match s room with
  | some clients => clients.length
  | none => 0

/-! ## socket.io primitives used by the handlers -/

/-- The call `socket.join(room)`: the room is created when it has no entry, and the socket id
is added to its set (adding an id that is already there changes nothing). -/
def socketJoin (s : Rooms) (socket : SocketId) (room : RoomKey) : Rooms :=
  fun k =>
    if k = room then
      match s room with
      | some clients => if socket ∈ clients then some clients else some (clients ++ [socket])
      | none => some [socket]
    else s k

/-- The call `socket.to(room).emit(ev)`: the event goes to every socket of the room
except the sender. -/
def socketToEmit (s : Rooms) (socket : SocketId) (room : RoomKey) (ev : ServerEvent) :
    List Emit :=
  match s room with
  | some clients => (clients.filter (fun c => decide (c ≠ socket))).map (fun c => ⟨c, ev⟩)
  | none => []

/-- Transport disconnect: the socket leaves every room it is in, and a room left without
sockets is deleted from the table. -/
def socketLeaveAll (s : Rooms) (socket : SocketId) : Rooms :=
  fun k =>
    match s k with
    | some clients =>
      if socket ∈ clients then
        (match clients.filter (fun c => decide (c ≠ socket)) with
         | [] => none
         | c :: rest => some (c :: rest))
      else some clients
    | none => none

/-! ## The handlers of `server.js` -/

/-- Handler `socket.on('join', room => ...)`. -/
def onJoin (s : Rooms) (socket : SocketId) (room : RoomKey) : Rooms × List Emit :=
  if numClients s room = 0 then
    (socketJoin s socket room, [⟨socket, ServerEvent.created room⟩])
  else if numClients s room = 1 then
    (socketJoin s socket room,
      ⟨socket, ServerEvent.joined room⟩ ::
        socketToEmit (socketJoin s socket room) socket room ServerEvent.ready)
  else
    (s, [⟨socket, ServerEvent.full room⟩])

/-- Handler `socket.on('offer', (room, offer) => ...)`. -/
def onOffer (s : Rooms) (socket : SocketId) (room : RoomKey) (offer : Payload) :
    Rooms × List Emit :=
  (s, socketToEmit s socket room (ServerEvent.offer offer))

/-- Handler `socket.on('answer', (room, answer) => ...)`. -/
def onAnswer (s : Rooms) (socket : SocketId) (room : RoomKey) (answer : Payload) :
    Rooms × List Emit :=
  (s, socketToEmit s socket room (ServerEvent.answer answer))

/-- Handler `socket.on('ice-candidate', (room, candidate) => ...)`. -/
def onIceCandidate (s : Rooms) (socket : SocketId) (room : RoomKey) (candidate : Payload) :
    Rooms × List Emit :=
  (s, socketToEmit s socket room (ServerEvent.iceCandidate candidate))

/-- Disconnect of a connection: no handler is registered in `server.js`, so nothing is
emitted; socket.io removes the socket from its rooms. -/
def onDisconnect (s : Rooms) (socket : SocketId) : Rooms × List Emit :=
  (socketLeaveAll s socket, [])

/-- The event that carries a payload of the given message kind. -/
def MsgType.event (t : MsgType) (payload : Payload) : ServerEvent :=
  match t with
  | MsgType.offer => ServerEvent.offer payload
  | MsgType.answer => ServerEvent.answer payload
  | MsgType.iceCandidate => ServerEvent.iceCandidate payload

/-- Dispatch of a negotiation message to its handler. -/
def onRelay (s : Rooms) (socket : SocketId) (t : MsgType) (room : RoomKey) (payload : Payload) :
    Rooms × List Emit :=
  match t with
  | MsgType.offer => onOffer s socket room payload
  | MsgType.answer => onAnswer s socket room payload
  | MsgType.iceCandidate => onIceCandidate s socket room payload

/-! ## Traces -/

/-- What a connection can make the relay handle. -/
inductive ClientEvent where
  | join (room : RoomKey)
  | relay (t : MsgType) (room : RoomKey) (payload : Payload)
  | disconnect
  deriving DecidableEq

/-- One event handled by the relay (each handler runs to completion). -/
def step (s : Rooms) (socket : SocketId) (e : ClientEvent) : Rooms × List Emit :=
  match e with
  | ClientEvent.join room => onJoin s socket room
  | ClientEvent.relay t room payload => onRelay s socket t room payload
  | ClientEvent.disconnect => onDisconnect s socket

/-- A sequence of events handled one after the other; the emissions are collected in order. -/
def run (s : Rooms) : List (SocketId × ClientEvent) → Rooms × List Emit
  | [] => (s, [])
  | (socket, e) :: es =>
    ((run (step s socket e).1 es).1, (step s socket e).2 ++ (run (step s socket e).1 es).2)

/-- Tables the relay can be in: those some trace leads to from the empty table. -/
def Reachable (s : Rooms) : Prop :=
  ∃ es : List (SocketId × ClientEvent), (run noRooms es).1 = s

/-- Events addressed to a given connection, in order. -/
def received (out : List Emit) (socket : SocketId) : List ServerEvent :=
  (out.filter (fun m => decide (m.dest = socket))).map (fun m => m.ev)

/-! ## Room key handling of the client (`public/app.js`) -/

/-- White space and line terminators removed by `String.prototype.trim`. -/
def isWhiteSpace (c : Char) : Bool :=
  c.val = 0x09 || c.val = 0x0A || c.val = 0x0B || c.val = 0x0C || c.val = 0x0D ||
  c.val = 0x20 || c.val = 0xA0 || c.val = 0x1680 ||
  (0x2000 ≤ c.val && c.val ≤ 0x200A) ||
  c.val = 0x2028 || c.val = 0x2029 || c.val = 0x202F || c.val = 0x205F ||
  c.val = 0x3000 || c.val = 0xFEFF

/-- The method `String.prototype.trim`: white space removed from both ends. -/
def trim (roomId : String) : String :=
  String.mk ((roomId.data.dropWhile isWhiteSpace).reverse.dropWhile isWhiteSpace).reverse

/-- The room key `handleJoin` sends with `join`: nothing when the trimmed text is empty,
else `roomId.trim()`. -/
def handleJoin (roomId : String) : Option RoomKey :=
  if (trim roomId).data = [] then none else some (trim roomId)

/-- The room key `createOffer` sends with `offer`: nothing when `roomId` is empty,
else `roomId` itself. -/
def createOffer (roomId : String) : Option RoomKey :=
  if roomId.data = [] then none else some roomId

/-- The room key the `offer` handler of the client sends with `answer`: `roomId` itself. -/
def answerRoom (roomId : String) : RoomKey := roomId

/-- The room key `pc.onicecandidate` sends with `ice-candidate`: nothing when `roomId` is
empty, else `roomId` itself. -/
def onicecandidate (roomId : String) : Option RoomKey :=
  if roomId.data = [] then none else some roomId

/-! ## Predicates used in the statements -/

/-- Every set of the table is a set (no id twice), is not empty and has at most two ids. -/
def WellFormed (s : Rooms) : Prop :=
  ∀ k clients, s k = some clients → clients.Nodup ∧ clients ≠ [] ∧ clients.length ≤ 2

/-- No connection is a member of two rooms with different keys. -/
def SingleRoom (s : Rooms) : Prop :=
  ∀ c R1 R2, c ∈ members s R1 → c ∈ members s R2 → R1 = R2

/-- The joins of the connections `cs` on one room key, in the order of the list. -/
def joinAll (room : RoomKey) (cs : List SocketId) : List (SocketId × ClientEvent) :=
  cs.map (fun c => (c, ClientEvent.join room))

/-- The event is a `created`. -/
def ServerEvent.isCreated : ServerEvent → Bool
  | ServerEvent.created _ => true
  | _ => false

/-- The event is a `joined`. -/
def ServerEvent.isJoined : ServerEvent → Bool
  | ServerEvent.joined _ => true
  | _ => false

/-- The event is a `full`. -/
def ServerEvent.isFull : ServerEvent → Bool
  | ServerEvent.full _ => true
  | _ => false

/-- The event is one of the three answers to a join: `created`, `joined` or `full`. -/
def ServerEvent.isReply (e : ServerEvent) : Bool :=
  e.isCreated || e.isJoined || e.isFull

/-- The answers to a join (`created`, `joined`, `full`) addressed to a given connection. -/
def replies (out : List Emit) (socket : SocketId) : List ServerEvent :=
  (received out socket).filter ServerEvent.isReply

/-! ## Basic facts about the primitives -/

theorem numClients_eq_length (s : Rooms) (room : RoomKey) :
    numClients s room = (members s room).length := by
  unfold numClients members
  cases s room <;> rfl

theorem members_socketJoin_same (s : Rooms) (c : SocketId) (room : RoomKey) :
    members (socketJoin s c room) room =
      if c ∈ members s room then members s room else members s room ++ [c] := by
  unfold members socketJoin
  cases h : s room with
  | none => simp
  | some clients => by_cases hc : c ∈ clients <;> simp [hc]

theorem socketJoin_other (s : Rooms) (c : SocketId) (room k : RoomKey) (hk : k ≠ room) :
    socketJoin s c room k = s k := by
  simp [socketJoin, hk]

theorem members_socketJoin_other (s : Rooms) (c : SocketId) (room k : RoomKey) (hk : k ≠ room) :
    members (socketJoin s c room) k = members s k := by
  simp [members, socketJoin_other s c room k hk]

theorem socketToEmit_eq (s : Rooms) (c : SocketId) (room : RoomKey) (ev : ServerEvent) :
    socketToEmit s c room ev =
      ((members s room).filter (fun x => decide (x ≠ c))).map (fun x => ⟨x, ev⟩) := by
  unfold socketToEmit members
  cases s room <;> rfl

theorem onRelay_eq (s : Rooms) (c : SocketId) (t : MsgType) (room : RoomKey) (p : Payload) :
    onRelay s c t room p = (s, socketToEmit s c room (t.event p)) := by
  cases t <;> rfl

theorem members_socketLeaveAll (s : Rooms) (c : SocketId) (k : RoomKey) :
    members (socketLeaveAll s c) k = (members s k).filter (fun x => decide (x ≠ c)) := by
  unfold members socketLeaveAll
  cases h : s k with
  | none => simp
  | some clients =>
    by_cases hc : c ∈ clients
    · simp only [hc, if_true]
      cases hf : clients.filter (fun x => decide (x ≠ c)) <;> simp
    · simp only [hc, if_false]
      symm
      apply List.filter_eq_self.mpr
      intro a ha
      have : a ≠ c := fun e => hc (e ▸ ha)
      simpa using this

/-- A list that is a rearrangement of two elements is one of the two orders. -/
theorem perm_pair {m : List SocketId} {a b : SocketId} (h : m.Perm [a, b]) :
    m = [a, b] ∨ m = [b, a] := by
  have hl : m.length = 2 := by simpa using h.length_eq
  match m, hl with
  | [x, y], _ =>
    have hx : x ∈ [a, b] := h.subset (by simp)
    have hy : y ∈ [a, b] := h.subset (by simp)
    have ha : a ∈ [x, y] := h.symm.subset (by simp)
    have hb : b ∈ [x, y] := h.symm.subset (by simp)
    simp only [List.mem_cons, List.mem_singleton, List.not_mem_nil, or_false] at hx hy ha hb
    have hc := h.count_eq a
    by_cases hab : a = b
    · subst hab
      rcases hx with rfl | rfl <;> rcases hy with rfl | rfl <;> simp
    · rcases hx with rfl | rfl
      · rcases hy with rfl | rfl
        · rcases hb with rfl | rfl <;> simp
        · simp
      · rcases hy with rfl | rfl
        · simp
        · rcases ha with rfl | rfl <;> simp

theorem wellFormed_noRooms : WellFormed noRooms := by
  intro k clients h
  simp [noRooms] at h

theorem wellFormed_members {s : Rooms} (h : WellFormed s) (k : RoomKey) :
    (members s k).Nodup ∧ (members s k).length ≤ 2 := by
  unfold members
  cases hk : s k with
  | none => simp
  | some clients => exact ⟨(h k clients hk).1, (h k clients hk).2.2⟩

theorem wellFormed_socketLeaveAll {s : Rooms} (h : WellFormed s) (c : SocketId) :
    WellFormed (socketLeaveAll s c) := by
  intro k clients hk
  unfold socketLeaveAll at hk
  cases hs : s k with
  | none => simp [hs] at hk
  | some m =>
    obtain ⟨hnd, hne, hlen⟩ := h k m hs
    simp only [hs] at hk
    by_cases hc : c ∈ m
    · simp only [hc, if_true] at hk
      cases hf : m.filter (fun x => decide (x ≠ c)) with
      | nil => rw [hf] at hk; simp at hk
      | cons a rest =>
        rw [hf] at hk
        simp only [Option.some.injEq] at hk
        subst hk
        have h1 : (m.filter (fun x => decide (x ≠ c))).Nodup := hnd.filter _
        have h2 : (m.filter (fun x => decide (x ≠ c))).length ≤ m.length :=
          List.length_filter_le _ _
        rw [hf] at h1 h2
        exact ⟨h1, by simp, le_trans h2 hlen⟩
    · simp only [hc, if_false, Option.some.injEq] at hk
      subst hk
      exact ⟨hnd, hne, hlen⟩

theorem wellFormed_socketJoin {s : Rooms} (h : WellFormed s) (c : SocketId) (room : RoomKey)
    (hn : numClients s room ≤ 1) : WellFormed (socketJoin s c room) := by
  intro k clients hk
  unfold socketJoin at hk
  by_cases hkr : k = room
  · simp only [hkr, if_true] at hk
    cases hs : s room with
    | none =>
      simp only [hs, Option.some.injEq] at hk
      subst hk
      simp
    | some m =>
      obtain ⟨hnd, hne, hlen⟩ := h room m hs
      have hm : m.length ≤ 1 := by simpa [numClients, hs] using hn
      simp only [hs] at hk
      by_cases hc : c ∈ m
      · simp only [hc, if_true, Option.some.injEq] at hk
        subst hk
        exact ⟨hnd, hne, hlen⟩
      · simp only [hc, if_false, Option.some.injEq] at hk
        subst hk
        refine ⟨?_, by simp, by simp; omega⟩
        rw [List.nodup_append]
        refine ⟨hnd, by simp, ?_⟩
        intro a ha hb
        simp at hb
        subst hb
        exact hc ha
  · simp only [hkr, if_false] at hk
    exact h k clients hk

theorem wellFormed_onJoin {s : Rooms} (h : WellFormed s) (c : SocketId) (room : RoomKey) :
    WellFormed (onJoin s c room).1 := by
  unfold onJoin
  by_cases h0 : numClients s room = 0
  · simp only [h0, if_true]
    exact wellFormed_socketJoin h c room (by omega)
  · by_cases h1 : numClients s room = 1
    · simp only [h1, if_true, one_ne_zero, if_false]
      exact wellFormed_socketJoin h c room (by omega)
    · simp only [h0, h1, if_false]
      exact h

theorem wellFormed_step {s : Rooms} (h : WellFormed s) (c : SocketId) (e : ClientEvent) :
    WellFormed (step s c e).1 := by
  cases e with
  | join room => exact wellFormed_onJoin h c room
  | relay t room p => simpa [step, onRelay_eq] using h
  | disconnect => exact wellFormed_socketLeaveAll h c

theorem wellFormed_run {s : Rooms} (h : WellFormed s) (es : List (SocketId × ClientEvent)) :
    WellFormed (run s es).1 := by
  induction es generalizing s with
  | nil => exact h
  | cons x es ih =>
    obtain ⟨c, e⟩ := x
    exact ih (wellFormed_step h c e)

theorem wellFormed_of_reachable {s : Rooms} (h : Reachable s) : WellFormed s := by
  obtain ⟨es, rfl⟩ := h
  exact wellFormed_run wellFormed_noRooms es

/-- C1 (room capacity): after every finite sequence of join, relay and disconnect events
handled from the empty table, every room key has 0, 1 or 2 members. -/
theorem room_capacity (es : List (SocketId × ClientEvent)) (R : RoomKey) :
    numClients (run noRooms es).1 R = 0 ∨ numClients (run noRooms es).1 R = 1 ∨
      numClients (run noRooms es).1 R = 2 := by
  have h := (wellFormed_members (wellFormed_run wellFormed_noRooms es) R).2
  rw [← numClients_eq_length] at h
  omega

theorem numClients_zero_iff (s : Rooms) (room : RoomKey) :
    numClients s room = 0 ↔ members s room = [] := by
  rw [numClients_eq_length]
  exact List.length_eq_zero

theorem onJoin_of_unused (s : Rooms) (R : RoomKey) (A : SocketId) (hR : members s R = []) :
    onJoin s A R = (socketJoin s A R, [⟨A, ServerEvent.created R⟩]) ∧
      members (socketJoin s A R) R = [A] := by
  have h0 : numClients s R = 0 := (numClients_zero_iff s R).mpr hR
  refine ⟨by simp [onJoin, h0], ?_⟩
  rw [members_socketJoin_same, hR]
  simp

theorem onJoin_of_one (s : Rooms) (R : RoomKey) (A B : SocketId) (hR : members s R = [A])
    (hAB : A ≠ B) :
    onJoin s B R =
        (socketJoin s B R, [⟨B, ServerEvent.joined R⟩, ⟨A, ServerEvent.ready⟩]) ∧
      members (socketJoin s B R) R = [A, B] := by
  have h1 : numClients s R = 1 := by
    rw [numClients_eq_length, hR]; rfl
  have hBA : ¬ B = A := fun e => hAB e.symm
  have hm : members (socketJoin s B R) R = [A, B] := by
    rw [members_socketJoin_same, hR]; simp [hBA]
  exact ⟨by simp [onJoin, h1, socketToEmit_eq, hm, hAB], hm⟩

/-- C2 (role assignment on join): when `R` has no members and `A`, `B` are distinct, the join
of `A` emits only `created(R)` to `A`; the join of `B` right after emits exactly `joined(R)`
to `B` and `ready` to `A`; afterwards the members of `R` are exactly `A` and `B`. -/
theorem role_assignment_on_join (s : Rooms) (R : RoomKey) (A B : SocketId)
    (hR : members s R = []) (hAB : A ≠ B) :
    (onJoin s A R).2 = [⟨A, ServerEvent.created R⟩] ∧
    (onJoin (onJoin s A R).1 B R).2 = [⟨B, ServerEvent.joined R⟩, ⟨A, ServerEvent.ready⟩] ∧
    members (onJoin (onJoin s A R).1 B R).1 R = [A, B] := by
  obtain ⟨hA, hmA⟩ := onJoin_of_unused s R A hR
  obtain ⟨hB, hmB⟩ := onJoin_of_one (socketJoin s A R) R A B hmA hAB
  rw [hA]
  refine ⟨rfl, ?_, ?_⟩
  · simp only [hB]
  · simp only [hB, hmB]

theorem role_assignment_on_join_witness :
    members noRooms "alice-room" = [] ∧ (1 : SocketId) ≠ 2 ∧
    ((onJoin noRooms 1 "alice-room").2 = [⟨1, ServerEvent.created "alice-room"⟩] ∧
     (onJoin (onJoin noRooms 1 "alice-room").1 2 "alice-room").2 =
        [⟨2, ServerEvent.joined "alice-room"⟩, ⟨1, ServerEvent.ready⟩] ∧
     members (onJoin (onJoin noRooms 1 "alice-room").1 2 "alice-room").1 "alice-room" = [1, 2]) :=
  ⟨rfl, by decide, role_assignment_on_join noRooms "alice-room" 1 2 rfl (by decide)⟩

/-- C3 (rejection when full): when `R` has the two members `A` and `B` and `C` is neither,
the join of `C` emits exactly `full(R)` to `C`, leaves the whole table as it was, and `C` is
not a member of `R` afterwards. -/
theorem rejection_when_full (s : Rooms) (R : RoomKey) (A B C : SocketId)
    (hR : (members s R).Perm [A, B]) (hCA : C ≠ A) (hCB : C ≠ B) :
    onJoin s C R = (s, [⟨C, ServerEvent.full R⟩]) ∧ C ∉ members (onJoin s C R).1 R := by
  have h2 : numClients s R = 2 := by
    rw [numClients_eq_length]; simpa using hR.length_eq
  have hJ : onJoin s C R = (s, [⟨C, ServerEvent.full R⟩]) := by
    simp [onJoin, h2]
  refine ⟨hJ, ?_⟩
  rw [hJ]
  intro hC
  have := hR.subset hC
  simp at this
  rcases this with h | h
  · exact hCA h
  · exact hCB h

theorem rejection_when_full_witness :
    (members (run noRooms [(1, ClientEvent.join "r"), (2, ClientEvent.join "r")]).1 "r").Perm
        [2, 1] ∧ (3 : SocketId) ≠ 2 ∧ (3 : SocketId) ≠ 1 ∧
    (onJoin (run noRooms [(1, ClientEvent.join "r"), (2, ClientEvent.join "r")]).1 3 "r" =
        ((run noRooms [(1, ClientEvent.join "r"), (2, ClientEvent.join "r")]).1,
          [⟨3, ServerEvent.full "r"⟩]) ∧
      3 ∉ members
        (onJoin (run noRooms [(1, ClientEvent.join "r"), (2, ClientEvent.join "r")]).1 3 "r").1
        "r") :=
  ⟨List.Perm.swap 2 1 [], by decide, by decide,
    rejection_when_full _ "r" 2 1 3 (List.Perm.swap 2 1 []) (by decide) (by decide)⟩

/-- C4 (verbatim forwarding): when `R` has exactly the two members `A` and `B`, a message of
kind `t` with payload `p` sent by `A` on `R` makes the relay emit exactly one event: `t` with
the payload `p`, addressed to `B`; the table is unchanged. -/
theorem verbatim_forwarding (s : Rooms) (R : RoomKey) (A B : SocketId) (t : MsgType)
    (p : Payload) (hR : (members s R).Perm [A, B]) (hAB : A ≠ B) :
    onRelay s A t R p = (s, [⟨B, t.event p⟩]) := by
  have hBA : ¬ B = A := fun e => hAB e.symm
  rw [onRelay_eq, socketToEmit_eq]
  rcases perm_pair hR with h | h <;> simp [h, hBA]

theorem verbatim_forwarding_witness :
    (members (run noRooms [(1, ClientEvent.join "r"), (2, ClientEvent.join "r")]).1 "r").Perm
        [2, 1] ∧ (2 : SocketId) ≠ 1 ∧
    onRelay (run noRooms [(1, ClientEvent.join "r"), (2, ClientEvent.join "r")]).1 2
        MsgType.answer "r" "sdp" =
      ((run noRooms [(1, ClientEvent.join "r"), (2, ClientEvent.join "r")]).1,
        [⟨1, MsgType.answer.event "sdp"⟩]) :=
  ⟨List.Perm.swap 2 1 [], by decide,
    verbatim_forwarding _ "r" 2 1 MsgType.answer "sdp" (List.Perm.swap 2 1 []) (by decide)⟩

/-- C5 (relay to nobody): when `R` has no entry in the table, or no member other than the
sender, a relayed message emits no event at all and leaves the table unchanged. -/
theorem relay_to_nobody (s : Rooms) (socket : SocketId) (R : RoomKey) (t : MsgType)
    (p : Payload) (h : s R = none ∨ ∀ c ∈ members s R, c = socket) :
    onRelay s socket t R p = (s, []) := by
  rw [onRelay_eq, socketToEmit_eq]
  have hm : ∀ c ∈ members s R, c = socket := by
    rcases h with h | h
    · intro c hc
      simp [members, h] at hc
    · exact h
  have : (members s R).filter (fun x => decide (x ≠ socket)) = [] := by
    apply List.filter_eq_nil_iff.mpr
    intro a ha
    simp [hm a ha]
  rw [this]
  rfl

theorem relay_to_nobody_witness :
    ((run noRooms [(1, ClientEvent.join "r")]).1 "r" = none ∨
      ∀ c ∈ members (run noRooms [(1, ClientEvent.join "r")]).1 "r", c = 1) ∧
    onRelay (run noRooms [(1, ClientEvent.join "r")]).1 1 MsgType.offer "r" "sdp" =
      ((run noRooms [(1, ClientEvent.join "r")]).1, []) :=
  ⟨Or.inr (by decide),
    relay_to_nobody _ 1 "r" MsgType.offer "sdp" (Or.inr (by decide))⟩

theorem length_filter_ne_succ (m : List SocketId) (x : SocketId) (hnd : m.Nodup)
    (hx : x ∈ m) : (m.filter (fun c => decide (c ≠ x))).length + 1 = m.length := by
  induction m with
  | nil => simp at hx
  | cons a rest ih =>
    have hnd' := List.nodup_cons.mp hnd
    by_cases hax : a = x
    · subst hax
      have : rest.filter (fun c => decide (c ≠ a)) = rest := by
        apply List.filter_eq_self.mpr
        intro b hb
        have : b ≠ a := fun e => hnd'.1 (e ▸ hb)
        simpa using this
      rw [List.filter_cons, if_neg (by simp), this]
      rfl
    · have hx' : x ∈ rest := by
        rcases List.mem_cons.mp hx with h | h
        · exact absurd h.symm hax
        · exact h
      have := ih hnd'.2 hx'
      rw [List.filter_cons, if_pos (by simpa using hax)]
      simp only [List.length_cons]
      omega

theorem received_socketToEmit_self (s : Rooms) (c : SocketId) (room : RoomKey)
    (ev : ServerEvent) : received (socketToEmit s c room ev) c = [] := by
  rw [socketToEmit_eq]
  unfold received
  simp only [List.map_eq_nil_iff]
  apply List.filter_eq_nil_iff.mpr
  intro m hm
  simp only [List.mem_map, List.mem_filter] at hm
  obtain ⟨a, ⟨_, ha⟩, rfl⟩ := hm
  simpa using ha

/-- C6 (disconnect frees a slot): in a reachable table where `X` is a member of `R`, the
disconnect of `X` lowers the member count of `R` by exactly one; a connection `Z` joining `R`
directly afterwards receives `created(R)` when `R` then has no members and `joined(R)` when
`R` then has one member (and nothing else). -/
theorem disconnect_frees_slot (s : Rooms) (hs : Reachable s) (X : SocketId) (R : RoomKey)
    (hX : X ∈ members s R) (Z : SocketId) :
    numClients (onDisconnect s X).1 R + 1 = numClients s R ∧
    (numClients (onDisconnect s X).1 R = 0 →
      received (onJoin (onDisconnect s X).1 Z R).2 Z = [ServerEvent.created R]) ∧
    (numClients (onDisconnect s X).1 R = 1 →
      received (onJoin (onDisconnect s X).1 Z R).2 Z = [ServerEvent.joined R]) := by
  have hnd := (wellFormed_members (wellFormed_of_reachable hs) R).1
  refine ⟨?_, ?_, ?_⟩
  · rw [numClients_eq_length, numClients_eq_length]
    show (members (socketLeaveAll s X) R).length + 1 = _
    rw [members_socketLeaveAll]
    exact length_filter_ne_succ _ X hnd hX
  · intro h0
    simp [onJoin, h0, received]
  · intro h1
    have := received_socketToEmit_self (socketJoin (onDisconnect s X).1 Z R) Z R
      ServerEvent.ready
    simp only [onJoin, h1, one_ne_zero, if_false, if_true]
    unfold received at this ⊢
    simp only [List.filter_cons, decide_True, if_true, List.map_cons, this]

theorem disconnect_frees_slot_witness :
    Reachable (run noRooms
        [(1, ClientEvent.join "alice-room"), (2, ClientEvent.join "alice-room")]).1 ∧
    2 ∈ members (run noRooms
        [(1, ClientEvent.join "alice-room"), (2, ClientEvent.join "alice-room")]).1
        "alice-room" ∧
    numClients (onDisconnect (run noRooms
        [(1, ClientEvent.join "alice-room"), (2, ClientEvent.join "alice-room")]).1 2).1
        "alice-room" = 1 ∧
    received (onJoin (onDisconnect (run noRooms
        [(1, ClientEvent.join "alice-room"), (2, ClientEvent.join "alice-room")]).1 2).1 3
        "alice-room").2 3 = [ServerEvent.joined "alice-room"] :=
  ⟨⟨_, rfl⟩, by decide, by decide,
    (disconnect_frees_slot _ ⟨_, rfl⟩ 2 "alice-room" (by decide) 3).2.2 (by decide)⟩

theorem run_joinAll_of_full (s : Rooms) (R : RoomKey) (cs : List SocketId)
    (h2 : numClients s R = 2) :
    run s (joinAll R cs) = (s, cs.map (fun c => ⟨c, ServerEvent.full R⟩)) := by
  induction cs with
  | nil => rfl
  | cons c rest ih =>
    have hJ : onJoin s c R = (s, [⟨c, ServerEvent.full R⟩]) := by
      simp [onJoin, h2]
    have ih' : run s (List.map (fun c => (c, ClientEvent.join R)) rest) =
        (s, rest.map (fun c => ⟨c, ServerEvent.full R⟩)) := ih
    simp only [joinAll, List.map_cons, run, step, hJ, ih']
    rfl

theorem run_joinAll_of_unused (s : Rooms) (R : RoomKey) (a b : SocketId)
    (rest : List SocketId) (hR : members s R = []) (hab : a ≠ b) :
    (run s (joinAll R (a :: b :: rest))).2 =
      [⟨a, ServerEvent.created R⟩, ⟨b, ServerEvent.joined R⟩, ⟨a, ServerEvent.ready⟩] ++
        rest.map (fun c => ⟨c, ServerEvent.full R⟩) := by
  obtain ⟨hA, hmA⟩ := onJoin_of_unused s R a hR
  obtain ⟨hB, hmB⟩ := onJoin_of_one (socketJoin s a R) R a b hmA hab
  have hfull : numClients (socketJoin (socketJoin s a R) b R) R = 2 := by
    rw [numClients_eq_length, hmB]; rfl
  have hrest : run (socketJoin (socketJoin s a R) b R)
      (List.map (fun c => (c, ClientEvent.join R)) rest) =
        (socketJoin (socketJoin s a R) b R, rest.map (fun c => ⟨c, ServerEvent.full R⟩)) :=
    run_joinAll_of_full _ R rest hfull
  simp only [joinAll, List.map_cons, run, step, hA, hB, hrest]
  rfl

theorem received_append (l1 l2 : List Emit) (c : SocketId) :
    received (l1 ++ l2) c = received l1 c ++ received l2 c := by
  simp [received, List.filter_append]

theorem received_map_of_nodup (l : List SocketId) (ev : ServerEvent) (x : SocketId)
    (hnd : l.Nodup) :
    received (l.map (fun c => (⟨c, ev⟩ : Emit))) x = if x ∈ l then [ev] else [] := by
  induction l with
  | nil => rfl
  | cons y l ih =>
    have hy := List.nodup_cons.mp hnd
    have hrec : received ((y :: l).map (fun c => (⟨c, ev⟩ : Emit))) x =
        received [(⟨y, ev⟩ : Emit)] x ++ received (l.map (fun c => (⟨c, ev⟩ : Emit))) x := by
      rw [← received_append]; rfl
    rw [hrec, ih hy.2]
    by_cases hxy : x = y
    · subst hxy
      simp [received, hy.1]
    · have hyx : ¬ y = x := fun e => hxy e.symm
      by_cases hxl : x ∈ l <;> simp [received, hxy, hyx, hxl]

theorem replies_map_full (R : RoomKey) (l : List SocketId) (p : ServerEvent → Bool)
    (b : Bool) (hp : p (ServerEvent.full R) = b) :
    (l.map (fun c => (⟨c, ServerEvent.full R⟩ : Emit))).countP (fun m => p m.ev) =
      if b then l.length else 0 := by
  induction l with
  | nil => cases b <;> rfl
  | cons x l ih =>
    rw [List.map_cons, List.countP_cons, ih]
    cases b <;> simp [hp]

/-- C7 (one initiator, one responder): when `R` has no members, `N >= 2` joins of `R` by
pairwise distinct connections, handled one after the other in any order, are answered with
exactly one `created`, exactly one `joined` and exactly `N - 2` `full`, each sent to a joiner:
exactly one joiner is told `created(R)`, exactly one is told `joined(R)`, exactly `N - 2` are
told `full(R)`, and a connection that did not join receives nothing. -/
theorem one_initiator_one_responder (s : Rooms) (R : RoomKey) (cs : List SocketId)
    (hN : 2 ≤ cs.length) (hnd : cs.Nodup) (hR : members s R = []) :
    ((run s (joinAll R cs)).2.countP (fun m => m.ev.isCreated) = 1 ∧
     (run s (joinAll R cs)).2.countP (fun m => m.ev.isJoined) = 1 ∧
     (run s (joinAll R cs)).2.countP (fun m => m.ev.isFull) = cs.length - 2) ∧
    (cs.countP (fun c => decide (replies (run s (joinAll R cs)).2 c = [ServerEvent.created R]))
        = 1 ∧
     cs.countP (fun c => decide (replies (run s (joinAll R cs)).2 c = [ServerEvent.joined R]))
        = 1 ∧
     cs.countP (fun c => decide (replies (run s (joinAll R cs)).2 c = [ServerEvent.full R]))
        = cs.length - 2) ∧
    (∀ c, c ∉ cs → received (run s (joinAll R cs)).2 c = []) := by
  match cs, hN, hnd with
  | a :: b :: rest, _, hnd =>
    obtain ⟨ha, hnd1⟩ := List.nodup_cons.mp hnd
    obtain ⟨hb, hnd2⟩ := List.nodup_cons.mp hnd1
    have hab : a ≠ b := fun e => ha (e ▸ List.mem_cons_self _ _)
    have hba : ¬ b = a := fun e => hab e.symm
    have har : a ∉ rest := fun h => ha (List.mem_cons_of_mem _ h)
    rw [run_joinAll_of_unused s R a b rest hR hab]
    have hrecv : ∀ x, received
        ([⟨a, ServerEvent.created R⟩, ⟨b, ServerEvent.joined R⟩, ⟨a, ServerEvent.ready⟩] ++
          rest.map (fun c => (⟨c, ServerEvent.full R⟩ : Emit))) x =
        received
          [⟨a, ServerEvent.created R⟩, ⟨b, ServerEvent.joined R⟩, ⟨a, ServerEvent.ready⟩] x ++
          (if x ∈ rest then [ServerEvent.full R] else []) := by
      intro x
      rw [received_append, received_map_of_nodup rest _ x hnd2]
    have hra : replies
        ([⟨a, ServerEvent.created R⟩, ⟨b, ServerEvent.joined R⟩, ⟨a, ServerEvent.ready⟩] ++
          rest.map (fun c => (⟨c, ServerEvent.full R⟩ : Emit))) a = [ServerEvent.created R] := by
      unfold replies
      rw [hrecv]
      simp [received, hba, har, ServerEvent.isReply, ServerEvent.isCreated, ServerEvent.isJoined,
        ServerEvent.isFull]
    have hrb : replies
        ([⟨a, ServerEvent.created R⟩, ⟨b, ServerEvent.joined R⟩, ⟨a, ServerEvent.ready⟩] ++
          rest.map (fun c => (⟨c, ServerEvent.full R⟩ : Emit))) b = [ServerEvent.joined R] := by
      unfold replies
      rw [hrecv]
      simp [received, hab, hb, ServerEvent.isReply, ServerEvent.isCreated, ServerEvent.isJoined,
        ServerEvent.isFull]
    have hrr : ∀ c ∈ rest, replies
        ([⟨a, ServerEvent.created R⟩, ⟨b, ServerEvent.joined R⟩, ⟨a, ServerEvent.ready⟩] ++
          rest.map (fun c => (⟨c, ServerEvent.full R⟩ : Emit))) c = [ServerEvent.full R] := by
      intro c hc
      have hca : ¬ a = c := fun e => har (e ▸ hc)
      have hcb : ¬ b = c := fun e => hb (e ▸ hc)
      unfold replies
      rw [hrecv]
      simp [received, hca, hcb, hc, ServerEvent.isReply, ServerEvent.isCreated,
        ServerEvent.isJoined, ServerEvent.isFull]
    refine ⟨⟨?_, ?_, ?_⟩, ⟨?_, ?_, ?_⟩, ?_⟩
    · rw [List.countP_append, replies_map_full R rest ServerEvent.isCreated false rfl]
      simp [List.countP_cons, ServerEvent.isCreated]
    · rw [List.countP_append, replies_map_full R rest ServerEvent.isJoined false rfl]
      simp [List.countP_cons, ServerEvent.isJoined]
    · rw [List.countP_append, replies_map_full R rest ServerEvent.isFull true rfl]
      simp [List.countP_cons, ServerEvent.isFull]
    · have h0 : rest.countP (fun c => decide (replies
          ([⟨a, ServerEvent.created R⟩, ⟨b, ServerEvent.joined R⟩, ⟨a, ServerEvent.ready⟩] ++
            rest.map (fun c => (⟨c, ServerEvent.full R⟩ : Emit))) c = [ServerEvent.created R]))
          = 0 := by
        apply List.countP_eq_zero.mpr
        intro c hc
        rw [hrr c hc]
        simp
      rw [List.countP_cons, List.countP_cons, h0, hra, hrb]
      simp
    · have h0 : rest.countP (fun c => decide (replies
          ([⟨a, ServerEvent.created R⟩, ⟨b, ServerEvent.joined R⟩, ⟨a, ServerEvent.ready⟩] ++
            rest.map (fun c => (⟨c, ServerEvent.full R⟩ : Emit))) c = [ServerEvent.joined R]))
          = 0 := by
        apply List.countP_eq_zero.mpr
        intro c hc
        rw [hrr c hc]
        simp
      rw [List.countP_cons, List.countP_cons, h0, hra, hrb]
      simp
    · have h0 : rest.countP (fun c => decide (replies
          ([⟨a, ServerEvent.created R⟩, ⟨b, ServerEvent.joined R⟩, ⟨a, ServerEvent.ready⟩] ++
            rest.map (fun c => (⟨c, ServerEvent.full R⟩ : Emit))) c = [ServerEvent.full R]))
          = rest.length := by
        apply List.countP_eq_length.mpr
        intro c hc
        rw [hrr c hc]
        simp
      rw [List.countP_cons, List.countP_cons, h0, hra, hrb]
      simp
    · intro c hc
      have hca : ¬ a = c := fun e => hc (e ▸ List.mem_cons_self _ _)
      have hcb : ¬ b = c :=
        fun e => hc (List.mem_cons_of_mem _ (e ▸ List.mem_cons_self _ _))
      have hcr : c ∉ rest :=
        fun h => hc (List.mem_cons_of_mem _ (List.mem_cons_of_mem _ h))
      rw [hrecv]
      simp [received, hca, hcb, hcr]

theorem one_initiator_one_responder_witness :
    2 ≤ [3, 1, 2, 4].length ∧ [3, 1, 2, 4].Nodup ∧ members noRooms "r" = [] ∧
    (((run noRooms (joinAll "r" [3, 1, 2, 4])).2.countP (fun m => m.ev.isCreated) = 1 ∧
      (run noRooms (joinAll "r" [3, 1, 2, 4])).2.countP (fun m => m.ev.isJoined) = 1 ∧
      (run noRooms (joinAll "r" [3, 1, 2, 4])).2.countP (fun m => m.ev.isFull) =
        [3, 1, 2, 4].length - 2) ∧
     ([3, 1, 2, 4].countP (fun c => decide
          (replies (run noRooms (joinAll "r" [3, 1, 2, 4])).2 c = [ServerEvent.created "r"]))
        = 1 ∧
      [3, 1, 2, 4].countP (fun c => decide
          (replies (run noRooms (joinAll "r" [3, 1, 2, 4])).2 c = [ServerEvent.joined "r"]))
        = 1 ∧
      [3, 1, 2, 4].countP (fun c => decide
          (replies (run noRooms (joinAll "r" [3, 1, 2, 4])).2 c = [ServerEvent.full "r"]))
        = [3, 1, 2, 4].length - 2) ∧
     (∀ c, c ∉ [3, 1, 2, 4] → received (run noRooms (joinAll "r" [3, 1, 2, 4])).2 c = [])) ∧
    replies (run noRooms (joinAll "r" [3, 1, 2, 4])).2 3 = [ServerEvent.created "r"] ∧
    replies (run noRooms (joinAll "r" [3, 1, 2, 4])).2 1 = [ServerEvent.joined "r"] ∧
    replies (run noRooms (joinAll "r" [3, 1, 2, 4])).2 2 = [ServerEvent.full "r"] ∧
    replies (run noRooms (joinAll "r" [3, 1, 2, 4])).2 4 = [ServerEvent.full "r"] :=
  ⟨by decide, by decide, rfl,
    one_initiator_one_responder noRooms "r" [3, 1, 2, 4] (by decide) (by decide) rfl,
    by decide, by decide, by decide, by decide⟩

theorem mem_members_socketJoin {s : Rooms} {x c : SocketId} {room R : RoomKey}
    (h : c ∈ members (socketJoin s x room) R) :
    c ∈ members s R ∨ (x = c ∧ room = R) := by
  by_cases hk : R = room
  · subst hk
    rw [members_socketJoin_same] at h
    by_cases hx : x ∈ members s R
    · simp only [hx, if_true] at h
      exact Or.inl h
    · simp only [hx, if_false, List.mem_append, List.mem_singleton] at h
      rcases h with h | h
      · exact Or.inl h
      · exact Or.inr ⟨h.symm, rfl⟩
  · rw [members_socketJoin_other s x room R hk] at h
    exact Or.inl h

theorem mem_members_step {s : Rooms} {x c : SocketId} {e : ClientEvent} {R : RoomKey}
    (h : c ∈ members (step s x e).1 R) :
    c ∈ members s R ∨ (x, e) = (c, ClientEvent.join R) := by
  cases e with
  | join room =>
    simp only [step, onJoin] at h
    split_ifs at h
    · rcases mem_members_socketJoin h with h | ⟨h1, h2⟩
      · exact Or.inl h
      · exact Or.inr (by rw [h1, h2])
    · rcases mem_members_socketJoin h with h | ⟨h1, h2⟩
      · exact Or.inl h
      · exact Or.inr (by rw [h1, h2])
    · exact Or.inl h
  | relay t room p =>
    simp only [step, onRelay_eq] at h
    exact Or.inl h
  | disconnect =>
    simp only [step, onDisconnect, members_socketLeaveAll] at h
    exact Or.inl (List.mem_filter.mp h).1

theorem mem_members_run {s : Rooms} {c : SocketId} {R : RoomKey}
    (es : List (SocketId × ClientEvent)) (h : c ∈ members (run s es).1 R) :
    c ∈ members s R ∨ (c, ClientEvent.join R) ∈ es := by
  induction es generalizing s with
  | nil => exact Or.inl h
  | cons x es ih =>
    obtain ⟨x, e⟩ := x
    have h' : c ∈ members (run (step s x e).1 es).1 R := h
    rcases ih h' with h1 | h1
    · rcases mem_members_step h1 with h2 | h2
      · exact Or.inl h2
      · exact Or.inr (by rw [h2]; exact List.mem_cons_self _ _)
    · exact Or.inr (List.mem_cons_of_mem _ h1)

/-- C8, as stated, fails: connection 1 joins "r1" and then "r2" and is a member of both. -/
theorem single_room_counterexample :
    ¬ SingleRoom (run noRooms [(1, ClientEvent.join "r1"), (1, ClientEvent.join "r2")]).1 := by
  intro h
  have := h 1 "r1" "r2" (by decide) (by decide)
  exact absurd this (by decide)

/-- C8, amended (single-room membership): after every finite sequence of join, relay and
disconnect events handled from the empty table in which no connection joins two different
room keys, every connection is a member of at most one room. -/
theorem single_room_of_single_key (es : List (SocketId × ClientEvent))
    (h : ∀ c R1 R2, (c, ClientEvent.join R1) ∈ es → (c, ClientEvent.join R2) ∈ es → R1 = R2) :
    SingleRoom (run noRooms es).1 := by
  intro c R1 R2 h1 h2
  have hno : ∀ R, c ∉ members noRooms R := by
    intro R; simp [members, noRooms]
  rcases mem_members_run es h1 with h1 | h1
  · exact absurd h1 (hno R1)
  · rcases mem_members_run es h2 with h2 | h2
    · exact absurd h2 (hno R2)
    · exact h c R1 R2 h1 h2

theorem single_room_of_single_key_witness :
    (∀ c R1 R2,
      (c, ClientEvent.join R1) ∈
          [(1, ClientEvent.join "r"), (2, ClientEvent.join "r"), (1, ClientEvent.join "r")] →
      (c, ClientEvent.join R2) ∈
          [(1, ClientEvent.join "r"), (2, ClientEvent.join "r"), (1, ClientEvent.join "r")] →
      R1 = R2) ∧
    SingleRoom (run noRooms
      [(1, ClientEvent.join "r"), (2, ClientEvent.join "r"), (1, ClientEvent.join "r")]).1 :=
  ⟨by
      intro c R1 R2 h1 h2
      simp at h1 h2
      rcases h1 with h1 | h1 | h1 <;> rcases h2 with h2 | h2 | h2 <;> rw [h1.2, h2.2],
   single_room_of_single_key _ (by
      intro c R1 R2 h1 h2
      simp at h1 h2
      rcases h1 with h1 | h1 | h1 <;> rcases h2 with h2 | h2 | h2 <;> rw [h1.2, h2.2])⟩

/-- C9, as stated, fails: with 1 and 2 in room "r", an offer sent on "r" by connection 3,
which is not a member, is delivered to both 1 and 2. -/
theorem relay_recipients_counterexample :
    Reachable (run noRooms [(1, ClientEvent.join "r"), (2, ClientEvent.join "r")]).1 ∧
    (onRelay (run noRooms [(1, ClientEvent.join "r"), (2, ClientEvent.join "r")]).1 3
        MsgType.offer "r" "sdp").2 =
      [⟨1, ServerEvent.offer "sdp"⟩, ⟨2, ServerEvent.offer "sdp"⟩] :=
  ⟨⟨_, rfl⟩, by decide⟩

/-- C9, amended (recipients of a relayed message): in every reachable table, for every
sender (member of the room it names or not), room key, message kind and payload, the relay
forwards the message to every member of the room other than the sender and to no one else;
the number of recipients is at most two, and zero or one when the sender is a member. -/
theorem relay_recipients (s : Rooms) (hs : Reachable s) (socket : SocketId) (R : RoomKey)
    (t : MsgType) (p : Payload) :
    (onRelay s socket t R p).2 =
      ((members s R).filter (fun c => decide (c ≠ socket))).map (fun c => ⟨c, t.event p⟩) ∧
    (onRelay s socket t R p).2.length ≤ 2 ∧
    (socket ∈ members s R → (onRelay s socket t R p).2.length ≤ 1) := by
  obtain ⟨hnd, hlen⟩ := wellFormed_members (wellFormed_of_reachable hs) R
  rw [onRelay_eq, socketToEmit_eq]
  refine ⟨rfl, ?_, ?_⟩
  · simp only [List.length_map]
    exact le_trans (List.length_filter_le _ _) hlen
  · intro hmem
    have := length_filter_ne_succ (members s R) socket hnd hmem
    simp only [List.length_map]
    omega

theorem relay_recipients_witness :
    Reachable (run noRooms [(1, ClientEvent.join "r"), (2, ClientEvent.join "r")]).1 ∧
    (onRelay (run noRooms [(1, ClientEvent.join "r"), (2, ClientEvent.join "r")]).1 1
        MsgType.iceCandidate "r" "cand").2.length ≤ 1 :=
  ⟨⟨_, rfl⟩,
    (relay_recipients _ ⟨_, rfl⟩ 1 "r" MsgType.iceCandidate "cand").2.2 (by decide)⟩

/-- C10 fails on the code: for the typed text " r" the client joins room "r" but sends its
offer, answer and candidates with the key " r"; on the relay, with both peers in "r", the
offer sent on " r" reaches no one. -/
theorem client_room_key_mismatch :
    handleJoin " r" = some "r" ∧ createOffer " r" = some " r" ∧ answerRoom " r" = " r" ∧
    onicecandidate " r" = some " r" ∧ handleJoin " r" ≠ createOffer " r" ∧
    (run noRooms [(1, ClientEvent.join "r"), (2, ClientEvent.join "r"),
        (1, ClientEvent.relay MsgType.offer " r" "sdp")]).2 =
      [⟨1, ServerEvent.created "r"⟩, ⟨2, ServerEvent.joined "r"⟩, ⟨1, ServerEvent.ready⟩] := by
  decide

/-- For a text `handleJoin` accepts, the key sent with `join` is the key sent with `offer`
exactly when the text has no white space at either end. -/
theorem handleJoin_eq_createOffer_iff (roomId : String) (h : handleJoin roomId ≠ none) :
    handleJoin roomId = createOffer roomId ↔ trim roomId = roomId := by
  have ht : (trim roomId).data ≠ [] := by
    intro e
    simp [handleJoin, e] at h
  have hr : roomId.data ≠ [] := by
    intro e
    apply ht
    simp [trim, e]
  simp [handleJoin, createOffer, ht, hr]

end WebRCT
